import Mathlib

/-!
Verification development for the Workout_Progress_Tracker repository.

The definitions below are a shallow embedding of the TypeScript tracker
component (the single large logic file of the repository) together with a
spec-modelled fragment for the backend merge step whose implementation file
is not part of the sources at hand.  JavaScript numbers are modelled as
exact rationals, and fields that the code guards against being absent
(the `|| 0` and `?? ` patterns) are modelled as `Option` values.
-/

/-- The muscle-group labels of the tracker, in the declaration order of the
`map` object literal inside `muscleGroupTonnage`. -/
inductive MuscleGroup where
  | Chest
  | Back
  | Legs
  | Shoulders
  | Arms
  | Core
  | Calves
  | Conditioning
  | Other
deriving DecidableEq

/-- Key iteration order of the accumulator object in `muscleGroupTonnage`
(JavaScript object keys enumerate in insertion order). -/
def MUSCLE_GROUPS : List MuscleGroup :=
  [MuscleGroup.Chest, MuscleGroup.Back, MuscleGroup.Legs, MuscleGroup.Shoulders,
   MuscleGroup.Arms, MuscleGroup.Core, MuscleGroup.Calves, MuscleGroup.Conditioning,
   MuscleGroup.Other]

/-- One row of the `WorkoutEntry` record type.  Numeric fields are modelled
as `Option` rationals: the code reads them through `|| 0` and `?? ` guards,
so a missing (undefined) value is meaningful.  Purely presentational fields
(`lowTarget`, `highTarget`, `tempo`, `rest`, `notes`, `exerciseRaw`,
`nextWeight`) are not consulted by any of the functions below and are
omitted. -/
structure WorkoutEntry where
  date : String
  exercise : String
  sets : Option ℚ
  reps : Option ℚ
  weight : Option ℚ
  rpe : Option ℚ
deriving DecidableEq

/-- Embedding of `epley1RM(w, r) = r > 0 ? w * (1 + r / 30) : w`. -/
def epley1RM (w r : ℚ) : ℚ :=
  if 0 < r then w * (1 + r / 30) else w

/-- Embedding of `tonnage(w) = (w.sets || 0) * (w.reps || 0) * (w.weight || 0)`;
the `|| 0` guard turns an absent (or zero) field into 0. -/
def tonnage (w : WorkoutEntry) : ℚ :=
  w.sets.getD 0 * (w.reps.getD 0 * w.weight.getD 0)

/-- The volume summation pattern of the tracker: `compareData` computes
`arr.reduce((s, w) => s + tonnage(w), 0)` and `weeklyVolumeSeries`
accumulates `map[ts].volume += tonnage(w)` over the entries of a bucket. -/
def sessionVolume (ws : List WorkoutEntry) : ℚ :=
  (ws.map tonnage).sum

/-- Model of `Number(x.toFixed(1))`: rounding to one decimal place.  The
ECMAScript `toFixed` spec picks the integer n minimising the distance of
n / 10 to the value and takes the larger n on ties, i.e. round half up. -/
def fix1 (q : ℚ) : ℚ :=
  (Int.floor (q * 10 + 1 / 2) : ℚ) / 10

/-- Embedding of `calculateNextWeight`: a 2.5 percent increase (to one
decimal) once the rep target is met at RPE 9+, a 5 percent back-off below
the low target, otherwise the current weight, each passed through
`toFixed(1)`. -/
def calculateNextWeight (currentWeight reps lowTarget highTarget rpe : ℚ) : ℚ :=
  if reps ≥ highTarget ∧ rpe ≥ 9 then fix1 (currentWeight * 1.025)
  else if reps < lowTarget then fix1 (currentWeight * 0.95)
  else fix1 currentWeight

/-- Whether the pattern is a leading block of the character list. -/
def matchHere : List Char → List Char → Bool
  | [], _ => true
  | _ :: _, [] => false
  | p :: ps, c :: cs => p == c && matchHere ps cs

/-- Whether the pattern occurs contiguously anywhere in the character
list; this is what a regex of plain alternatives tests. -/
def hasSub (p : List Char) : List Char → Bool
  | [] => matchHere p []
  | c :: cs => matchHere p (c :: cs) || hasSub p cs

/-- Model of `String.prototype.toLowerCase` for the ASCII names involved. -/
def strToLower (s : String) : String :=
  ⟨s.data.map Char.toLower⟩

/-- Whether the keyword occurs in the string. -/
def containsKw (x kw : String) : Bool :=
  hasSub kw.data x.data

/-- Whether any alternative of a keyword rule matches, as in
`/(a|b|c)/.test(x)` on an already lowercased `x`. -/
def matchesAny (x : String) (kws : List String) : Bool :=
  kws.any (containsKw x)

/-- The keyword-rule chain of `inferMuscleGroup`, applied when no override
exists: the body after `const x = (exercise || "").toLowerCase()`, with the
tests in source order. -/
def inferKeyword (exercise : String) : MuscleGroup :=
  let x := strToLower exercise
  if matchesAny x ["squat", "lunge", "leg press", "hack", "deadlift", "rdl",
      "thigh", "hamstring", "quad"] then MuscleGroup.Legs
  else if matchesAny x ["bench", "chest", "fly", "dip"] then MuscleGroup.Chest
  else if matchesAny x ["row", "pulldown", "pull-up", "chin", "lat", "back"] then
    MuscleGroup.Back
  else if matchesAny x ["press", "shoulder", "lateral", "rear delt", "overhead"] then
    MuscleGroup.Shoulders
  else if matchesAny x ["curl", "bicep", "tricep", "extension", "pushdown"] then
    MuscleGroup.Arms
  else if matchesAny x ["calf"] then MuscleGroup.Calves
  else if matchesAny x ["abs", "core", "crunch", "plank"] then MuscleGroup.Core
  else if matchesAny x ["run", "bike", "swim", "conditioning", "kettlebell",
      "cardio"] then MuscleGroup.Conditioning
  else MuscleGroup.Other

/-- Embedding of `inferMuscleGroup`: the override map is consulted with the
raw exercise name and an existing override is returned immediately
(`if (override) return override`); only otherwise do the keyword rules
run.  The override map is modelled as a partial lookup function. -/
def inferMuscleGroup (overrides : String → Option MuscleGroup)
    (exercise : String) : MuscleGroup :=
  match overrides exercise with
  | some g => g
  | none => inferKeyword exercise

/-- The per-group accumulation loop of `muscleGroupTonnage`:
`map[inferMuscleGroup(w.exercise)] += tonnage(w)` over all workouts,
expressed as the sum of the contributions landing on one group. -/
def groupTonnage (overrides : String → Option MuscleGroup)
    (ws : List WorkoutEntry) (g : MuscleGroup) : ℚ :=
  (ws.map (fun w => if inferMuscleGroup overrides w.exercise = g then tonnage w else 0)).sum

/-- Intermediate item of `muscleGroupTonnage` before percentages are added
(the `color` field is a fixed palette constant and is omitted). -/
structure MGItem where
  name : MuscleGroup
  value : ℚ
deriving DecidableEq

/-- Stable insertion for a descending sort by `value`; equal values keep
their relative order, as the stable JavaScript `sort` with comparator
`(a, b) => b.value - a.value` does. -/
def mgInsert (x : MGItem) : List MGItem → List MGItem
  | [] => [x]
  | y :: ys => if y.value < x.value then x :: y :: ys else y :: mgInsert x ys

/-- Stable descending sort by `value`, the unique stable sort for the
comparator `(a, b) => b.value - a.value`. -/
def mgSortDesc : List MGItem → List MGItem
  | [] => []
  | x :: xs => mgInsert x (mgSortDesc xs)

/-- Final entry shape of `muscleGroupTonnage`: name, volume, rounded
percentage of the total, and the shared total. -/
structure MGStat where
  name : MuscleGroup
  value : ℚ
  pct : ℚ
  total : ℚ
deriving DecidableEq

/-- The `items` constant of `muscleGroupTonnage`: one item per group,
keeping the strictly positive values (`.filter((x) => x.value > 0)`),
sorted descending by value. -/
def mgItems (overrides : String → Option MuscleGroup)
    (ws : List WorkoutEntry) : List MGItem :=
  mgSortDesc
    ((MUSCLE_GROUPS.map fun g => MGItem.mk g (groupTonnage overrides ws g)).filter
      fun x => decide (0 < x.value))

/-- The `total` constant of `muscleGroupTonnage`: the reduce-sum of the
kept item values. -/
def mgTotal (overrides : String → Option MuscleGroup)
    (ws : List WorkoutEntry) : ℚ :=
  ((mgItems overrides ws).map MGItem.value).sum

/-- Embedding of `muscleGroupTonnage`: the kept, sorted items, each
annotated with its percentage of the kept total rounded to one decimal
place (`total ? +(x.value / total * 100).toFixed(1) : 0`). -/
def muscleGroupTonnage (overrides : String → Option MuscleGroup)
    (ws : List WorkoutEntry) : List MGStat :=
  (mgItems overrides ws).map fun x =>
    MGStat.mk x.name x.value
      (if mgTotal overrides ws ≠ 0 then fix1 (x.value / mgTotal overrides ws * 100) else 0)
      (mgTotal overrides ws)

/-- Rendering of a JavaScript number in a template literal, for the values
the theorems below instantiate: an integral value prints without a decimal
point.  (Non-integral values print in decimal notation in JavaScript; the
generic `toString` placeholder here is only ever applied to integral
values in this development.) -/
def numStr (q : ℚ) : String :=
  if q.den = 1 then toString q.num else toString q

/-- Template interpolation of a possibly-absent number, as in a bare
template literal slot: an undefined value renders as the text undefined. -/
def optNumStr : Option ℚ → String
  | some v => numStr v
  | none => "undefined"

/-- Interpolation of the RPE slot, which the source writes with a nullish
fallback to the empty string. -/
def rpeStr : Option ℚ → String
  | some v => numStr v
  | none => ""

/-- The deduplication key of `deduplicateWorkouts`: the dash-joined
template string over date, exercise, weight, reps and RPE.  Note that the
fields are concatenated without escaping, so distinct field tuples can
produce the same key when a field itself contains dashes. -/
def dedupKey (w : WorkoutEntry) : String :=
  w.date ++ "-" ++ w.exercise ++ "-" ++ optNumStr w.weight ++ "-" ++
    optNumStr w.reps ++ "-" ++ rpeStr w.rpe

/-- The `filter` body of `deduplicateWorkouts` with its `seen` set of keys
made explicit: an entry whose key was already seen is dropped, otherwise
it is kept and its key recorded. -/
def dedupGo (seen : List String) : List WorkoutEntry → List WorkoutEntry
  | [] => []
  | w :: ws =>
    if dedupKey w ∈ seen then dedupGo seen ws
    else w :: dedupGo (dedupKey w :: seen) ws

/-- Embedding of `deduplicateWorkouts`, which starts from an empty seen
set. -/
def deduplicateWorkouts (ws : List WorkoutEntry) : List WorkoutEntry :=
  dedupGo [] ws

/-- Reference form used to characterise `deduplicateWorkouts`: keep the
head and recurse on the tail purged of entries sharing the head key. -/
def firstOccByKey : List WorkoutEntry → List WorkoutEntry
  | [] => []
  | w :: ws => w :: firstOccByKey (ws.filter fun v => dedupKey v != dedupKey w)
termination_by l => l.length
decreasing_by
  simp only [List.length_cons]
  exact Nat.lt_succ_of_le (List.length_filter_le _ _)

/-- The set of keys recorded after `dedupGo` has traversed a block of
entries, used to reason about deduplication of concatenated uploads. -/
def seenAfter (seen : List String) : List WorkoutEntry → List String
  | [] => seen
  | w :: ws =>
    if dedupKey w ∈ seen then seenAfter seen ws
    else seenAfter (dedupKey w :: seen) ws

/-- Follows the words of the specification for claim C3: the sum of
weight times reps over exactly those sets where both weight and reps are
present and positive (an entry stands for its recorded number of sets),
every set missing either field contributing 0. -/
def claimedSessionVolume (ws : List WorkoutEntry) : ℚ :=
  (ws.map fun w =>
    match w.weight, w.reps with
    | some wt, some r => if 0 < wt ∧ 0 < r then w.sets.getD 0 * (wt * r) else 0
    | _, _ => 0).sum

/-- Match-quality tiers of the session matcher, written in the source as
the strings exact, close, approximate and none. -/
inductive MatchQuality where
  | exactMatch
  | closeMatch
  | approximateMatch
  | noMatch
deriving DecidableEq

/-- Modelled from the spec: the biometric workout-boundary window consumed
by the backend merge step (`merge_workout_data` in the backend file, which
is not among the sources); start and stop are minutes on a common clock
and the aggregates are the values the window would contribute. -/
structure BioWindow where
  start : ℚ
  stop : ℚ
  avgHR : ℚ
  maxHR : ℚ
  minHR : ℚ
  calories : ℚ
  distance : ℚ
deriving DecidableEq

/-- Modelled from the spec: the training-session side of the matcher,
reduced to its nominal time window. -/
structure TrainingSession where
  start : ℚ
  duration : ℚ
deriving DecidableEq

/-- Modelled from the spec: the fusion result for one training session;
biometric-derived fields are optional. -/
structure MergedWorkout where
  matchQuality : MatchQuality
  avgHeartRate : Option ℚ
  maxHeartRate : Option ℚ
  minHeartRate : Option ℚ
  calories : Option ℚ
  distance : Option ℚ
deriving DecidableEq

/-- Midpoint of the nominal session window. -/
def sessionMid (s : TrainingSession) : ℚ :=
  s.start + s.duration / 2

/-- Midpoint of a biometric workout window. -/
def windowMid (w : BioWindow) : ℚ :=
  (w.start + w.stop) / 2

/-- Absolute midpoint gap between a session and a biometric window, in
minutes. -/
def gapOf (s : TrainingSession) (w : BioWindow) : ℚ :=
  |windowMid w - sessionMid s|

/-- Modelled from the spec: nearest-neighbour search over the biometric
windows, smallest absolute gap first, ties broken by the earliest window
in stream order. -/
def bestWindow (s : TrainingSession) : List BioWindow → Option (BioWindow × ℚ)
  | [] => none
  | w :: ws =>
    match bestWindow s ws with
    | none => some (w, gapOf s w)
    | some (b, g) => if gapOf s w ≤ g then some (w, gapOf s w) else some (b, g)

/-- Modelled from the spec: the tier thresholds — a gap below 5 minutes is
exact, below 30 close, below 45 approximate, anything else no match. -/
def tierOfGap (g : ℚ) : MatchQuality :=
  if g < 5 then MatchQuality.exactMatch
  else if g < 30 then MatchQuality.closeMatch
  else if g < 45 then MatchQuality.approximateMatch
  else MatchQuality.noMatch

/-- Modelled from the spec: the merge of one training session with the
biometric stream.  When no window exists, or the nearest window sits at or
beyond the 45-minute radius, the result carries tier none and no biometric
field is populated; otherwise the matched aggregates are copied over. -/
def mergeWorkout (s : TrainingSession) (bws : List BioWindow) : MergedWorkout :=
  match bestWindow s bws with
  | none => MergedWorkout.mk MatchQuality.noMatch none none none none none
  | some (w, g) =>
    let q := tierOfGap g
    if q = MatchQuality.noMatch then
      MergedWorkout.mk MatchQuality.noMatch none none none none none
    else
      MergedWorkout.mk q (some w.avgHR) (some w.maxHR) (some w.minHR)
        (some w.calories) (some w.distance)

/-- The empty override map. -/
def ovEmpty : String → Option MuscleGroup := fun _ => none

/-- An override map sending the exercise Squat to Chest, against the
keyword rule that classifies it under Legs. -/
def ovSquatChest : String → Option MuscleGroup := fun x =>
  if x = "Squat" then some MuscleGroup.Chest else none

/-- A logged calf exercise: one set of ten reps at 50 kg. -/
def calfEntry : WorkoutEntry :=
  WorkoutEntry.mk "2024-01-02" "Calf Raise" (some 1) (some 10) (some 50) (some 8)

/-- An entry with a present but negative weight, as a CSV row with a
negative number in the weight column would produce. -/
def negEntry : WorkoutEntry :=
  WorkoutEntry.mk "2024-01-02" "Bench Press" (some 1) (some 3) (some (-5)) (some 8)

/-- Two sets of five reps at 100 kg. -/
def benchEntry : WorkoutEntry :=
  WorkoutEntry.mk "2024-01-03" "Bench Press" (some 2) (some 5) (some 100) (some 9)

/-- An entry lacking its reps and RPE fields. -/
def partialEntry : WorkoutEntry :=
  WorkoutEntry.mk "2024-01-03" "Squat" (some 1) none (some 50) none

/-- First entry of the deduplication key collision pair: its fields other
than date and exercise are absent. -/
def dw1 : WorkoutEntry :=
  WorkoutEntry.mk "2024-01-05" "Press" none none none none

/-- Second entry of the collision pair: date and exercise differ from
`dw1`, yet the dash-joined key is character-for-character the same. -/
def dw2 : WorkoutEntry :=
  WorkoutEntry.mk "2024-01" "05-Press" none none none none

/-- A biometric window far away (midpoint gap 135 minutes) from the
witness session below. -/
def farWindow : BioWindow :=
  BioWindow.mk 100 200 120 150 80 400 2000

/-- A session starting at minute 0 with a 30-minute duration. -/
def witnessSession : TrainingSession :=
  TrainingSession.mk 0 30

/-- Rounding an exact tenth to one decimal place returns it unchanged. -/
theorem fix1_tenth (n : ℤ) : fix1 ((n : ℚ) / 10) = (n : ℚ) / 10 := by
  unfold fix1
  have h : ((n : ℚ) / 10) * 10 + 1 / 2 = (n : ℚ) + 1 / 2 := by ring
  rw [h]
  have hf : Int.floor ((n : ℚ) + 1 / 2) = n := by
    rw [Int.floor_eq_iff]
    constructor
    · linarith
    · linarith
  rw [hf]

/-- Claim C4: for a set with weight w at least 0 and reps r strictly
positive, the estimated one-rep max is exactly w * (1 + r / 30), the Epley
formula as written in `epley1RM`. -/
theorem c4_epley_formula (w r : ℚ) (_hw : 0 ≤ w) (hr : 0 < r) :
    epley1RM w r = w * (1 + r / 30) := by
  unfold epley1RM
  rw [if_pos hr]

/-- Witness for C4 at weight 100 kg and 5 reps. -/
theorem c4_epley_formula_witness :
    (0:ℚ) ≤ 100 ∧ epley1RM 100 5 = 100 * (1 + 5 / 30) :=
  ⟨by norm_num, c4_epley_formula 100 5 (by norm_num) (by norm_num)⟩

/-- Claim C5: for a fixed weight w at least 0, the estimated one-rep max
is monotonically non-decreasing in the rep count, and at zero reps it is
the weight itself. -/
theorem c5_epley_monotone (w r1 r2 : ℚ) (hw : 0 ≤ w) (h : r1 ≤ r2) :
    epley1RM w r1 ≤ epley1RM w r2 ∧ epley1RM w 0 = w := by
  constructor
  · unfold epley1RM
    split_ifs <;> first | linarith | nlinarith
  · simp [epley1RM]

/-- Witness for C5 at weight 80 kg, reps 3 and 5. -/
theorem c5_epley_monotone_witness :
    epley1RM 80 3 ≤ epley1RM 80 5 ∧ epley1RM 80 0 = 80 :=
  c5_epley_monotone 80 3 5 (by norm_num) (by norm_num)

/-- Claim C6: the summed volume of a list of workout set entries is
invariant under any permutation of the list. -/
theorem c6_volume_perm (l1 l2 : List WorkoutEntry) (h : l1.Perm l2) :
    sessionVolume l1 = sessionVolume l2 := by
  unfold sessionVolume
  exact List.Perm.sum_eq (h.map tonnage)

/-- Witness for C6: swapping two concrete entries. -/
theorem c6_volume_perm_witness :
    sessionVolume [benchEntry, partialEntry] = sessionVolume [partialEntry, benchEntry] :=
  c6_volume_perm _ _ (List.Perm.swap partialEntry benchEntry [])

/-- Claim C8: an exercise present in the override map is classified by
its override no matter what the keyword rules would say, and the keyword
rules are consulted exactly when the name is absent from the map. -/
theorem c8_override_precedence (overrides : String → Option MuscleGroup) (x : String) :
    (∀ g, overrides x = some g → inferMuscleGroup overrides x = g) ∧
      (overrides x = none → inferMuscleGroup overrides x = inferKeyword x) := by
  constructor
  · intro g hg
    unfold inferMuscleGroup
    rw [hg]
  · intro h
    unfold inferMuscleGroup
    rw [h]

/-- Witness for C8: the override sending Squat to Chest wins over the
keyword rule, which classifies Squat under Legs. -/
theorem c8_override_precedence_witness :
    inferMuscleGroup ovSquatChest "Squat" = MuscleGroup.Chest ∧
      inferKeyword "Squat" = MuscleGroup.Legs :=
  ⟨(c8_override_precedence ovSquatChest "Squat").1 MuscleGroup.Chest (by decide),
    by decide⟩

/-- Claim C2 (spec-modelled): a merged workout whose match quality is the
none tier carries no biometric-derived field: average, maximum and minimum
heart rate, calories and distance are all absent, never zero-filled. -/
theorem c2_none_no_biometrics (s : TrainingSession) (bws : List BioWindow)
    (h : (mergeWorkout s bws).matchQuality = MatchQuality.noMatch) :
    (mergeWorkout s bws).avgHeartRate = none ∧
      (mergeWorkout s bws).maxHeartRate = none ∧
      (mergeWorkout s bws).minHeartRate = none ∧
      (mergeWorkout s bws).calories = none ∧
      (mergeWorkout s bws).distance = none := by
  unfold mergeWorkout at h ⊢
  cases hb : bestWindow s bws with
  | none => simp
  | some p =>
    obtain ⟨w, g⟩ := p
    rw [hb] at h
    by_cases ht : tierOfGap g = MatchQuality.noMatch
    · simp [ht]
    · simp [ht] at h

/-- Witness for C2: a session whose nearest biometric window is 135
minutes away gets the none tier and empty biometric fields. -/
theorem c2_none_no_biometrics_witness :
    (mergeWorkout witnessSession [farWindow]).avgHeartRate = none ∧
      (mergeWorkout witnessSession [farWindow]).maxHeartRate = none ∧
      (mergeWorkout witnessSession [farWindow]).minHeartRate = none ∧
      (mergeWorkout witnessSession [farWindow]).calories = none ∧
      (mergeWorkout witnessSession [farWindow]).distance = none :=
  c2_none_no_biometrics witnessSession [farWindow] (by
    norm_num [mergeWorkout, bestWindow, gapOf, windowMid, sessionMid, tierOfGap,
      witnessSession, farWindow])

/-- Counterexample for C10: with current weight 0.25 kg, reps 7 between
the targets 6 and 10 and RPE 5, neither adjustment branch fires, yet the
returned suggestion is 0.3, not the unchanged 0.25 — every branch passes
through `toFixed(1)`. -/
theorem c10_counterexample :
    ¬((7:ℚ) ≥ 10 ∧ (5:ℚ) ≥ 9) ∧ ¬((7:ℚ) < 6) ∧
      calculateNextWeight (1/4) 7 6 10 5 = 3/10 ∧ ((3:ℚ)/10 ≠ 1/4) := by
  refine ⟨by norm_num, by norm_num, ?_, by norm_num⟩
  norm_num [calculateNextWeight, fix1]

/-- Claim C10 as amended: the suggestion is currentWeight * 1.025 rounded
to one decimal when reps reach the high target at RPE 9 or more, else
currentWeight * 0.95 rounded to one decimal when reps fall below the low
target, else currentWeight rounded to one decimal — which is
currentWeight itself whenever the weight is an exact tenth. -/
theorem c10_next_weight_cases (w reps low high rpe : ℚ) :
    (reps ≥ high → rpe ≥ 9 → calculateNextWeight w reps low high rpe = fix1 (w * 1.025)) ∧
      (¬(reps ≥ high ∧ rpe ≥ 9) → reps < low →
        calculateNextWeight w reps low high rpe = fix1 (w * 0.95)) ∧
      (¬(reps ≥ high ∧ rpe ≥ 9) → ¬(reps < low) →
        calculateNextWeight w reps low high rpe = fix1 w) ∧
      ((∃ n : ℤ, w = (n : ℚ) / 10) → ¬(reps ≥ high ∧ rpe ≥ 9) → ¬(reps < low) →
        calculateNextWeight w reps low high rpe = w) := by
  refine ⟨?_, ?_, ?_, ?_⟩
  · intro h1 h2
    unfold calculateNextWeight
    rw [if_pos ⟨h1, h2⟩]
  · intro h1 h2
    unfold calculateNextWeight
    rw [if_neg h1, if_pos h2]
  · intro h1 h2
    unfold calculateNextWeight
    rw [if_neg h1, if_neg h2]
  · rintro ⟨n, rfl⟩ h1 h2
    unfold calculateNextWeight
    rw [if_neg h1, if_neg h2]
    exact fix1_tenth n

/-- Witness for C10 amended: hitting 10 reps at RPE 9 on 100 kg suggests
102.5 kg. -/
theorem c10_next_weight_cases_witness :
    calculateNextWeight 100 10 6 10 9 = 205/2 := by
  have h := (c10_next_weight_cases 100 10 6 10 9).1 (by norm_num) (by norm_num)
  rw [h]
  norm_num [fix1]

/-- Counterexample for C3: an entry with one set of three reps at a
present but negative weight of -5 kg contributes -15 to the summed
volume, where the claimed positivity-filtered sum is 0. -/
theorem c3_counterexample :
    sessionVolume [negEntry] = -15 ∧ claimedSessionVolume [negEntry] = 0 ∧
      sessionVolume [negEntry] ≠ claimedSessionVolume [negEntry] := by
  refine ⟨?_, ?_, ?_⟩ <;>
    norm_num [sessionVolume, claimedSessionVolume, tonnage, negEntry]

/-- Claim C3 as amended: whenever every present weight and reps value is
nonnegative (as for real logged data), the summed session volume equals
the specification sum — weight times reps counted once per recorded set,
over exactly those entries where both fields are present and positive,
entries missing either field contributing 0. -/
theorem c3_volume_spec_sum (ws : List WorkoutEntry)
    (h : ∀ e ∈ ws, 0 ≤ e.weight.getD 0 ∧ 0 ≤ e.reps.getD 0) :
    sessionVolume ws = claimedSessionVolume ws := by
  induction ws with
  | nil => rfl
  | cons w ws ih =>
    have hw := h w (List.mem_cons_self w ws)
    have hrest : ∀ e ∈ ws, 0 ≤ e.weight.getD 0 ∧ 0 ≤ e.reps.getD 0 :=
      fun e he => h e (List.mem_cons_of_mem w he)
    unfold sessionVolume claimedSessionVolume at ih ⊢
    simp only [List.map_cons, List.sum_cons]
    rw [ih hrest]
    congr 1
    unfold tonnage
    cases hwt : w.weight with
    | none => simp [hwt]
    | some wt =>
      cases hre : w.reps with
      | none => simp [hre]
      | some r =>
        rw [hwt, hre] at hw
        simp only [Option.getD_some] at hw ⊢
        by_cases hpos : 0 < wt ∧ 0 < r
        · rw [if_pos hpos]
          ring
        · rw [if_neg hpos]
          rcases hw with ⟨hw1, hw2⟩
          have : wt = 0 ∨ r = 0 := by
            by_contra hc
            push_neg at hc
            exact hpos ⟨lt_of_le_of_ne hw1 (Ne.symm hc.1), lt_of_le_of_ne hw2 (Ne.symm hc.2)⟩
          rcases this with h0 | h0 <;> rw [h0] <;> ring

/-- Witness for C3 amended: a complete entry and a partial one. -/
theorem c3_volume_spec_sum_witness :
    sessionVolume [benchEntry, partialEntry] = claimedSessionVolume [benchEntry, partialEntry] ∧
      sessionVolume [benchEntry, partialEntry] = 1000 :=
  ⟨c3_volume_spec_sum _ (by decide),
    by norm_num [sessionVolume, tonnage, benchEntry, partialEntry]⟩

/-- The seen-set recursion of deduplication equals the first-occurrence
recursion on the input purged of already-seen keys. -/
theorem dedupGo_eq_firstOcc (l : List WorkoutEntry) : ∀ seen,
    dedupGo seen l = firstOccByKey (l.filter fun w => decide (dedupKey w ∉ seen)) := by
  induction l with
  | nil => intro seen; simp [dedupGo, firstOccByKey]
  | cons w ws ih =>
    intro seen
    by_cases h : dedupKey w ∈ seen
    · rw [dedupGo, if_pos h]
      have hd : decide (dedupKey w ∉ seen) = false := by simp [h]
      rw [List.filter_cons_of_neg (by simp [hd]), ih]
    · rw [dedupGo, if_neg h]
      have hd : decide (dedupKey w ∉ seen) = true := by simp [h]
      rw [List.filter_cons_of_pos (by simp [hd]), firstOccByKey, List.filter_filter]
      rw [ih (dedupKey w :: seen)]
      have hfe : List.filter
            (fun a => dedupKey a != dedupKey w && decide (dedupKey a ∉ seen)) ws
          = List.filter (fun v => decide (dedupKey v ∉ dedupKey w :: seen)) ws := by
        apply List.filter_congr
        intro v hv
        by_cases h1 : dedupKey v = dedupKey w
        · simp [h1]
        · by_cases h2 : dedupKey v ∈ seen <;> simp [h1, h2]
      rw [hfe]

/-- Deduplication from the empty seen set is exactly the first-occurrence
recursion. -/
theorem dedup_eq_firstOcc (l : List WorkoutEntry) :
    deduplicateWorkouts l = firstOccByKey l := by
  unfold deduplicateWorkouts
  rw [dedupGo_eq_firstOcc]
  congr 1
  rw [List.filter_eq_self]
  intro a _
  simp

/-- Every element of the first-occurrence list comes from the input. -/
theorem firstOcc_mem : ∀ (l : List WorkoutEntry) (x : WorkoutEntry),
    x ∈ firstOccByKey l → x ∈ l := by
  intro l
  induction l using firstOccByKey.induct with
  | case1 => intro x hx; simp [firstOccByKey] at hx
  | case2 w ws ih =>
    intro x hx
    rw [firstOccByKey] at hx
    rcases List.mem_cons.mp hx with h | h
    · exact h ▸ List.mem_cons_self x _
    · exact List.mem_cons_of_mem w (List.mem_of_mem_filter (ih x h))

/-- The first-occurrence list has pairwise distinct keys. -/
theorem firstOcc_pairwise : ∀ (l : List WorkoutEntry),
    (firstOccByKey l).Pairwise (fun a b => dedupKey a ≠ dedupKey b) := by
  intro l
  induction l using firstOccByKey.induct with
  | case1 => simp [firstOccByKey]
  | case2 w ws ih =>
    rw [firstOccByKey]
    refine List.pairwise_cons.mpr ⟨?_, ih⟩
    intro b hb
    have hb2 := firstOcc_mem _ _ hb
    have := List.of_mem_filter hb2
    simp only [bne_iff_ne, ne_eq] at this
    exact fun hk => this hk.symm

/-- A list with pairwise distinct keys is a fixed point of the
first-occurrence recursion. -/
theorem firstOcc_of_pairwise (l : List WorkoutEntry)
    (h : l.Pairwise fun a b => dedupKey a ≠ dedupKey b) :
    firstOccByKey l = l := by
  induction l with
  | nil => simp [firstOccByKey]
  | cons w ws ih =>
    rw [firstOccByKey]
    have hf : ws.filter (fun v => dedupKey v != dedupKey w) = ws := by
      rw [List.filter_eq_self]
      intro a ha
      have := (List.pairwise_cons.mp h).1 a ha
      simp only [bne_iff_ne, ne_eq]
      exact fun hk => this hk.symm
    rw [hf, ih (List.pairwise_cons.mp h).2]

/-- Deduplicating a concatenation deduplicates the first block and then
the second against the keys recorded from the first. -/
theorem dedupGo_append (seen : List String) (xs ys : List WorkoutEntry) :
    dedupGo seen (xs ++ ys) = dedupGo seen xs ++ dedupGo (seenAfter seen xs) ys := by
  induction xs generalizing seen with
  | nil => simp [dedupGo, seenAfter]
  | cons w ws ih =>
    by_cases h : dedupKey w ∈ seen
    · simp only [List.cons_append, dedupGo, if_pos h, seenAfter]
      exact ih seen
    · simp only [List.cons_append, dedupGo, if_neg h, seenAfter]
      exact congrArg (List.cons w) (ih (dedupKey w :: seen))

/-- The recorded key set only grows along the traversal. -/
theorem seenAfter_mono (s : String) (xs : List WorkoutEntry) : ∀ seen, s ∈ seen →
    s ∈ seenAfter seen xs := by
  induction xs with
  | nil => intro seen h; exact h
  | cons w ws ih =>
    intro seen h
    unfold seenAfter
    by_cases hw : dedupKey w ∈ seen
    · rw [if_pos hw]; exact ih seen h
    · rw [if_neg hw]; exact ih _ (List.mem_cons_of_mem _ h)

/-- After traversing a block, the key of each of its entries has been
recorded. -/
theorem mem_seenAfter (x : WorkoutEntry) (xs : List WorkoutEntry) : ∀ seen, x ∈ xs →
    dedupKey x ∈ seenAfter seen xs := by
  induction xs with
  | nil => intro seen h; exact absurd h (List.not_mem_nil x)
  | cons w ws ih =>
    intro seen h
    unfold seenAfter
    by_cases hw : dedupKey w ∈ seen
    · rw [if_pos hw]
      rcases List.mem_cons.mp h with rfl | h2
      · exact seenAfter_mono _ _ _ hw
      · exact ih seen h2
    · rw [if_neg hw]
      rcases List.mem_cons.mp h with rfl | h2
      · exact seenAfter_mono _ _ _ (List.mem_cons_self _ _)
      · exact ih _ h2

/-- A block all of whose keys are already recorded deduplicates to
nothing. -/
theorem dedupGo_nil_of_seen (ys : List WorkoutEntry) : ∀ seen,
    (∀ y ∈ ys, dedupKey y ∈ seen) → dedupGo seen ys = [] := by
  induction ys with
  | nil => intro seen _; rfl
  | cons y ys ih =>
    intro seen h
    rw [dedupGo, if_pos (h y (List.mem_cons_self y ys))]
    exact ih seen fun v hv => h v (List.mem_cons_of_mem y hv)

/-- Counterexample for C9: two entries whose (date, exercise, weight,
reps, rpe) tuples differ — the dates differ — but whose dash-joined keys
coincide because the dash separator is not escaped; deduplication keeps
only the first, while the claim, which speaks of distinct field tuples,
would keep both. -/
theorem c9_counterexample :
    dw1.date ≠ dw2.date ∧ dedupKey dw1 = dedupKey dw2 ∧
      deduplicateWorkouts [dw1, dw2] = [dw1] := by
  refine ⟨by decide, by decide, by decide⟩

/-- Claim C9 as amended: deduplication is idempotent; its output is, in
original relative order, exactly the first occurrence of each distinct
deduplication KEY (the dash-joined string over date, exercise, weight,
reps and RPE — distinct field tuples can collide when a field contains a
dash, and then only the first entry survives); and merging an upload all
of whose entries carry keys already present adds nothing. -/
theorem c9_dedup_properties (l xs ys : List WorkoutEntry) :
    deduplicateWorkouts (deduplicateWorkouts l) = deduplicateWorkouts l ∧
      deduplicateWorkouts l = firstOccByKey l ∧
      ((∀ y ∈ ys, ∃ x ∈ xs, dedupKey x = dedupKey y) →
        deduplicateWorkouts (xs ++ ys) = deduplicateWorkouts xs) := by
  refine ⟨?_, dedup_eq_firstOcc l, ?_⟩
  · rw [dedup_eq_firstOcc, dedup_eq_firstOcc]
    exact firstOcc_of_pairwise _ (firstOcc_pairwise l)
  · intro h
    unfold deduplicateWorkouts
    rw [dedupGo_append]
    have hnil : dedupGo (seenAfter [] xs) ys = [] := by
      apply dedupGo_nil_of_seen
      intro y hy
      obtain ⟨x, hx, hk⟩ := h y hy
      exact hk ▸ mem_seenAfter x xs [] hx
    rw [hnil, List.append_nil]

/-- Witness for C9 amended: re-uploading an entry already present leaves
the stored list unchanged. -/
theorem c9_dedup_properties_witness :
    deduplicateWorkouts ([dw1] ++ [dw1]) = deduplicateWorkouts [dw1] ∧
      deduplicateWorkouts [dw1] = [dw1] :=
  ⟨(c9_dedup_properties [dw1] [dw1] [dw1]).2.2 (by decide), by decide⟩

/-- Inserting into the descending-sorted list is a permutation of
consing. -/
theorem mgInsert_perm (x : MGItem) (l : List MGItem) :
    (mgInsert x l).Perm (x :: l) := by
  induction l with
  | nil => exact List.Perm.refl _
  | cons y ys ih =>
    unfold mgInsert
    by_cases h : y.value < x.value
    · rw [if_pos h]
    · rw [if_neg h]
      exact (ih.cons y).trans (List.Perm.swap x y ys)

/-- The descending sort permutes its input. -/
theorem mgSortDesc_perm (l : List MGItem) : (mgSortDesc l).Perm l := by
  induction l with
  | nil => exact List.Perm.refl _
  | cons x xs ih =>
    exact (mgInsert_perm x (mgSortDesc xs)).trans (ih.cons x)

/-- Summing an indicator over the full group list picks out the single
matching group. -/
theorem ite_sum_groups (g0 : MuscleGroup) (t : ℚ) :
    (MUSCLE_GROUPS.map fun g => if g0 = g then t else 0).sum = t := by
  cases g0 <;> simp [MUSCLE_GROUPS]

/-- Dropping the non-positive values can only increase the sum. -/
theorem filter_pos_sum_ge (l : List MGItem) :
    (l.map MGItem.value).sum ≤
      ((l.filter fun x => decide (0 < x.value)).map MGItem.value).sum := by
  induction l with
  | nil => simp
  | cons x xs ih =>
    by_cases h : 0 < x.value
    · rw [List.filter_cons_of_pos (by simp [h])]
      simp only [List.map_cons, List.sum_cons]
      linarith
    · rw [List.filter_cons_of_neg (by simp [h])]
      simp only [List.map_cons, List.sum_cons]
      have hx : x.value ≤ 0 := le_of_not_lt h
      linarith

/-- Rounding to one decimal moves a value by at most one twentieth. -/
theorem fix1_err (q : ℚ) : |fix1 q - q| ≤ 1 / 20 := by
  unfold fix1
  have h1 : ((Int.floor (q * 10 + 1 / 2) : ℤ) : ℚ) ≤ q * 10 + 1 / 2 :=
    Int.floor_le _
  have h2 : q * 10 + 1 / 2 < (Int.floor (q * 10 + 1 / 2) : ℚ) + 1 :=
    Int.lt_floor_add_one _
  rw [abs_le]
  constructor <;> linarith

/-- Rounding each summand to one decimal moves the sum by at most one
twentieth per element. -/
theorem sum_fix1_err (l : List ℚ) :
    |(l.map fix1).sum - l.sum| ≤ (l.length : ℚ) / 20 := by
  induction l with
  | nil => simp
  | cons q l ih =>
    simp only [List.map_cons, List.sum_cons, List.length_cons]
    have h1 := fix1_err q
    have h2 := abs_add (fix1 q - q) ((l.map fix1).sum - l.sum)
    have h3 : fix1 q + (l.map fix1).sum - (q + l.sum)
        = (fix1 q - q) + ((l.map fix1).sum - l.sum) := by ring
    rw [h3]
    push_cast
    linarith

/-- Unfolding one entry of the per-group accumulation. -/
theorem groupTonnage_cons (overrides : String → Option MuscleGroup)
    (w : WorkoutEntry) (ws : List WorkoutEntry) (g : MuscleGroup) :
    groupTonnage overrides (w :: ws) g
      = (if inferMuscleGroup overrides w.exercise = g then tonnage w else 0)
        + groupTonnage overrides ws g := by
  simp [groupTonnage]

/-- Every unit of volume lands on exactly one group: the per-group sums
add up to the total summed volume. -/
theorem groupTonnage_total (overrides : String → Option MuscleGroup)
    (ws : List WorkoutEntry) :
    (MUSCLE_GROUPS.map (groupTonnage overrides ws)).sum = sessionVolume ws := by
  induction ws with
  | nil => simp [groupTonnage, sessionVolume, MUSCLE_GROUPS]
  | cons w ws ih =>
    show (MUSCLE_GROUPS.map fun g => groupTonnage overrides (w :: ws) g).sum = _
    simp only [groupTonnage_cons]
    rw [List.sum_map_add]
    have h1 : (MUSCLE_GROUPS.map fun g =>
        if inferMuscleGroup overrides w.exercise = g then tonnage w else 0).sum
        = tonnage w := ite_sum_groups _ _
    have h2 : (MUSCLE_GROUPS.map fun g => groupTonnage overrides ws g).sum
        = sessionVolume ws := ih
    rw [h1, h2]
    simp [sessionVolume]

/-- The kept total equals the sum over the filtered, unsorted items. -/
theorem mgTotal_eq_filter_sum (overrides : String → Option MuscleGroup)
    (ws : List WorkoutEntry) :
    mgTotal overrides ws
      = (((MUSCLE_GROUPS.map fun g => MGItem.mk g (groupTonnage overrides ws g)).filter
          fun x => decide (0 < x.value)).map MGItem.value).sum := by
  unfold mgTotal mgItems
  exact ((mgSortDesc_perm _).map MGItem.value).sum_eq

/-- A strictly positive summed volume forces a strictly positive kept
total. -/
theorem mgTotal_pos (overrides : String → Option MuscleGroup)
    (ws : List WorkoutEntry) (h : 0 < sessionVolume ws) :
    0 < mgTotal overrides ws := by
  rw [mgTotal_eq_filter_sum]
  have h1 := filter_pos_sum_ge
    (MUSCLE_GROUPS.map fun g => MGItem.mk g (groupTonnage overrides ws g))
  have h2 : ((MUSCLE_GROUPS.map fun g =>
      MGItem.mk g (groupTonnage overrides ws g)).map MGItem.value).sum
      = sessionVolume ws := by
    rw [List.map_map]
    exact groupTonnage_total overrides ws
  linarith

/-- The item list never exceeds the nine groups. -/
theorem mgItems_length_le (overrides : String → Option MuscleGroup)
    (ws : List WorkoutEntry) : (mgItems overrides ws).length ≤ 9 := by
  unfold mgItems
  rw [(mgSortDesc_perm _).length_eq]
  have h := List.length_filter_le (fun x => decide (0 < x.value))
    (MUSCLE_GROUPS.map fun g => MGItem.mk g (groupTonnage overrides ws g))
  simpa [MUSCLE_GROUPS] using h

/-- Claim C7: when the summed tonnage of the history is strictly
positive, the per-group percentages of the distribution sum to 100 up to
the rounding tolerance — each percentage is rounded to one decimal place,
so the sum can drift by at most one twentieth per entry, nine entries at
most. -/
theorem c7_pct_sum_100 (overrides : String → Option MuscleGroup)
    (ws : List WorkoutEntry) (h : 0 < sessionVolume ws) :
    |((muscleGroupTonnage overrides ws).map MGStat.pct).sum - 100| ≤ 9 / 20 := by
  have hT := mgTotal_pos overrides ws h
  have hTne : mgTotal overrides ws ≠ 0 := ne_of_gt hT
  have hmap : (muscleGroupTonnage overrides ws).map MGStat.pct
      = (mgItems overrides ws).map
          (fun x => fix1 (x.value / mgTotal overrides ws * 100)) := by
    unfold muscleGroupTonnage
    rw [List.map_map]
    apply List.map_congr_left
    intro x _
    simp only [Function.comp]
    rw [if_pos hTne]
  have hq : ((mgItems overrides ws).map
      (fun x => x.value / mgTotal overrides ws * 100)).sum = 100 := by
    have h1 : (mgItems overrides ws).map
          (fun x => x.value / mgTotal overrides ws * 100)
        = (mgItems overrides ws).map
          (fun x => x.value * (100 / mgTotal overrides ws)) := by
      apply List.map_congr_left
      intro x _
      ring
    rw [h1, List.sum_map_mul_right]
    have h2 : ((mgItems overrides ws).map fun x => x.value).sum
        = mgTotal overrides ws := rfl
    rw [h2]
    field_simp
  have hfix := sum_fix1_err ((mgItems overrides ws).map
      (fun x => x.value / mgTotal overrides ws * 100))
  have h3 : (mgItems overrides ws).map
        (fun x => fix1 (x.value / mgTotal overrides ws * 100))
      = ((mgItems overrides ws).map
          (fun x => x.value / mgTotal overrides ws * 100)).map fix1 := by
    rw [List.map_map]
    rfl
  rw [hmap, h3]
  rw [hq] at hfix
  have hlen : (((mgItems overrides ws).map
      (fun x => x.value / mgTotal overrides ws * 100)).length : ℚ) ≤ 9 := by
    have := mgItems_length_le overrides ws
    rw [List.length_map]
    exact_mod_cast this
  linarith

/-- Witness for C7: the single-entry calf history has total tonnage 500
and a distribution whose percentages sum to exactly 100. -/
theorem c7_pct_sum_100_witness :
    |((muscleGroupTonnage ovEmpty [calfEntry]).map MGStat.pct).sum - 100| ≤ 9 / 20 :=
  c7_pct_sum_100 ovEmpty [calfEntry]
    (by norm_num [sessionVolume, tonnage, calfEntry])

/-- Membership description of the kept item list. -/
theorem mem_mgItems (overrides : String → Option MuscleGroup)
    (ws : List WorkoutEntry) (y : MGItem) :
    y ∈ mgItems overrides ws ↔
      (∃ g ∈ MUSCLE_GROUPS, MGItem.mk g (groupTonnage overrides ws g) = y)
        ∧ 0 < y.value := by
  unfold mgItems
  rw [(mgSortDesc_perm _).mem_iff, List.mem_filter]
  simp only [List.mem_map, decide_eq_true_eq]

/-- Claim C1 as amended: a group appears in the distribution exactly when
its own accumulated tonnage is strictly positive, and each entry reports
exactly its own group total — in particular calf volume stays under
Calves and is not folded into Legs. -/
theorem c1_calves_own_group (overrides : String → Option MuscleGroup)
    (ws : List WorkoutEntry) :
    ((∃ x ∈ muscleGroupTonnage overrides ws, x.name = MuscleGroup.Calves) ↔
        0 < groupTonnage overrides ws MuscleGroup.Calves) ∧
      ∀ x ∈ muscleGroupTonnage overrides ws,
        x.value = groupTonnage overrides ws x.name := by
  constructor
  · constructor
    · rintro ⟨x, hx, hname⟩
      unfold muscleGroupTonnage at hx
      rcases List.mem_map.mp hx with ⟨y, hy, rfl⟩
      rcases (mem_mgItems overrides ws y).mp hy with ⟨⟨g, _, rfl⟩, hpos⟩
      simp only [MGStat.name] at hname
      subst hname
      exact hpos
    · intro hpos
      refine ⟨MGStat.mk MuscleGroup.Calves
        (groupTonnage overrides ws MuscleGroup.Calves)
        (if mgTotal overrides ws ≠ 0 then
          fix1 (groupTonnage overrides ws MuscleGroup.Calves / mgTotal overrides ws * 100)
         else 0)
        (mgTotal overrides ws), ?_, rfl⟩
      unfold muscleGroupTonnage
      apply List.mem_map.mpr
      refine ⟨MGItem.mk MuscleGroup.Calves
        (groupTonnage overrides ws MuscleGroup.Calves), ?_, rfl⟩
      apply (mem_mgItems overrides ws _).mpr
      exact ⟨⟨MuscleGroup.Calves, by simp [MUSCLE_GROUPS], rfl⟩, hpos⟩
  · intro x hx
    unfold muscleGroupTonnage at hx
    rcases List.mem_map.mp hx with ⟨y, hy, rfl⟩
    rcases (mem_mgItems overrides ws y).mp hy with ⟨⟨g, _, rfl⟩, _⟩
    rfl

/-- Counterexample for C1: a history consisting of one calf exercise (one
set of ten reps at 50 kg).  The computed distribution is a single entry
named Calves carrying all 500 kg of volume at 100 percent — Calves
appears as its own nonzero entry and nothing is reported under Legs. -/
theorem c1_counterexample :
    muscleGroupTonnage ovEmpty [calfEntry]
      = [MGStat.mk MuscleGroup.Calves 500 100 500] := by
  have hinf : inferMuscleGroup ovEmpty "Calf Raise" = MuscleGroup.Calves := by decide
  have htn : tonnage calfEntry = 500 := by norm_num [tonnage, calfEntry]
  have hgt : ∀ g, groupTonnage ovEmpty [calfEntry] g
      = if MuscleGroup.Calves = g then 500 else 0 := by
    intro g
    have hx : calfEntry.exercise = "Calf Raise" := rfl
    simp [groupTonnage, hx, hinf, htn]
  norm_num [muscleGroupTonnage, mgItems, mgTotal, MUSCLE_GROUPS, hgt,
    mgSortDesc, mgInsert, fix1]

/-- Witness for C1 amended: on the calf-only history the distribution
contains an entry named Calves. -/
theorem c1_calves_own_group_witness :
    ∃ x ∈ muscleGroupTonnage ovEmpty [calfEntry], x.name = MuscleGroup.Calves :=
  (c1_calves_own_group ovEmpty [calfEntry]).1.mpr (by
    have hinf : inferMuscleGroup ovEmpty "Calf Raise" = MuscleGroup.Calves := by decide
    have hx : calfEntry.exercise = "Calf Raise" := rfl
    norm_num [groupTonnage, tonnage, calfEntry, hx, hinf])
